import Mathlib

/-!
Verification of the csv-stream record writer.

The development shallowly embeds the record-writer state machine of
`src/writer.rs`, the error taxonomy of `src/error.rs`, the pull adapter of
`src/iter.rs` and the push adapter of `src/stream.rs`.  Byte buffers are
`List Nat`, machine counters (`u64`) are `Nat`, and fallible Rust functions
returning `Result<()>` become functions returning an `Option ErrorKind`
together with the mutated writer and buffer (mutation through `&mut` is made
explicit state passing).

The byte-level field encoder (the external `csv_core` crate) and the
flattening serializer (`src/serializer.rs`, which is declared in `lib.rs`
but absent from the sources) are modelled from the specification; every
such definition is marked in its doc comment.
-/

namespace CsvStream

/-- The quoting style, from `src/lib.rs` (`QuoteStyle`). -/
inductive QuoteStyle where
  | Always
  | Necessary
  | NonNumeric
  | Never
deriving DecidableEq, Repr

/-- A record terminator, from `src/lib.rs` (`Terminator`). -/
inductive Terminator where
  | CRLF
  | Any (b : Nat)
deriving DecidableEq, Repr

/-- The specific type of an error, from `src/error.rs` (`ErrorKind`). -/
inductive ErrorKind where
  | UnequalLengths (expected_len : Nat) (len : Nat)
  | Serialize (msg : String)
deriving DecidableEq, Repr

/-- HeaderState encodes a small state machine for handling header writes,
from `src/writer.rs`. -/
inductive HeaderState where
  | Write
  | DidWrite
  | DidNotWrite
  | None
deriving DecidableEq, Repr

/-- The encoding configuration assembled by the builder: delimiter, quote,
escape, double-quote mode, quoting style and terminator
(`src/writer.rs` `WriterBuilder` knobs forwarded to the core builder). -/
structure CoreConfig where
  delimiter : Nat
  quote : Nat
  escape : Nat
  double_quote : Bool
  style : QuoteStyle
  term : Terminator
deriving DecidableEq, Repr

/-- Modelled from the spec: the byte-level Field Encoder is the external
`csv_core::Writer`, consumed but not implemented by this repository
(spec section 6).  Its only mutable state relevant to the interface is how
many bytes of the current record it has emitted, which drives the
quoted-empty-record rule documented in `src/lib.rs`
("an empty field is quoted if it is the only field in a record"). -/
structure CoreWriter where
  config : CoreConfig
  record_bytes : Nat
deriving DecidableEq, Repr

/-- The bytes of the configured record terminator. -/
def termBytes : Terminator → List Nat
  | .CRLF => [13, 10]
  | .Any b => [b]

/-- Whether a byte forces quoting under the `Necessary` style: quote,
delimiter or terminator bytes. -/
def needsQuoteByte (cfg : CoreConfig) (b : Nat) : Bool :=
  b == cfg.quote || b == cfg.delimiter || b == 13 || b == 10 ||
    (match cfg.term with
     | .CRLF => false
     | .Any t => b == t)

/-- Modelled from the spec: whether raw field bytes parse as a number, used
by the external encoder for the `NonNumeric` style (`src/lib.rs`: quotes
are used for a field "that does not parse as a valid float or integer"). -/
def isNumericBytes (s : List Nat) : Bool :=
  !s.isEmpty && s.all (fun b => (48 ≤ b && b ≤ 57) || b == 43 || b == 45 || b == 46 || b == 69 || b == 101)

/-- Whether the encoder quotes the given raw field bytes. -/
def shouldQuote (cfg : CoreConfig) (input : List Nat) : Bool :=
  match cfg.style with
  | .Always => true
  | .Never => false
  | .NonNumeric => !isNumericBytes input
  | .Necessary => input.any (needsQuoteByte cfg)

/-- Quote-escaping of raw field bytes: quotes are doubled when
`double_quote` is on, otherwise preceded by the escape byte. -/
def escapeQuotes (cfg : CoreConfig) : List Nat → List Nat
  | [] => []
  | b :: rest =>
    (if b == cfg.quote then
       (if cfg.double_quote then [b, b] else [cfg.escape, b])
     else [b]) ++ escapeQuotes cfg rest

/-- Modelled from the spec: `csv_core`'s encode-field operation — the
quoted/escaped bytes of one raw field, and the advanced encoder state. -/
def CoreWriter.field (c : CoreWriter) (input : List Nat) : List Nat × CoreWriter :=
  let out :=
    if shouldQuote c.config input then
      c.config.quote :: escapeQuotes c.config input ++ [c.config.quote]
    else input
  (out, { c with record_bytes := c.record_bytes + out.length })

/-- Modelled from the spec: `csv_core`'s encode-delimiter operation. -/
def CoreWriter.delimiter (c : CoreWriter) : List Nat × CoreWriter :=
  ([c.config.delimiter], { c with record_bytes := c.record_bytes + 1 })

/-- Modelled from the spec: `csv_core`'s encode-terminator operation.  A
record into which no bytes were written is rendered as a quoted empty field
(unless the style is `Never`) followed by the terminator bytes; the
per-record byte count then resets. -/
def CoreWriter.terminator (c : CoreWriter) : List Nat × CoreWriter :=
  let out :=
    (if c.record_bytes == 0 && !(c.config.style == QuoteStyle.Never) then
       [c.config.quote, c.config.quote]
     else []) ++ termBytes c.config.term
  (out, { c with record_bytes := 0 })

/-- The buffer-growth helper `extend` of `src/writer.rs`: resize the buffer
up by `cap` zero bytes, let the encoder write `out` into the fresh slice,
then truncate to the previous length plus the encoder-reported length. -/
def extend (buf : List Nat) (cap : Nat) (out : List Nat) : List Nat :=
  (buf ++ (out ++ List.replicate (cap - out.length) 0).take cap).take (buf.length + out.length)

/-- The mutable writer state of `src/writer.rs` (`WriterState`). -/
structure WriterState where
  header : HeaderState
  flexible : Bool
  first_field_count : Option Nat
  fields_written : Nat
  panicked : Bool
deriving DecidableEq, Repr

/-- The configured CSV writer of `src/writer.rs` (`Writer`): a core
field-encoder instance plus the writer state. -/
structure Writer where
  core : CoreWriter
  state : WriterState
deriving DecidableEq, Repr

/-- The writer builder of `src/writer.rs` (`WriterBuilder`). -/
structure WriterBuilder where
  config : CoreConfig
  capacity : Nat
  flexible : Bool
  has_headers : Bool
deriving DecidableEq, Repr

/-- `Writer::new` from `src/writer.rs`: the header state starts at `Write`
exactly when header emission is enabled, counters start at zero. -/
def Writer.new (b : WriterBuilder) : Writer :=
  { core := { config := b.config, record_bytes := 0 },
    state :=
      { header := if b.has_headers then HeaderState.Write else HeaderState.None,
        flexible := b.flexible,
        first_field_count := none,
        fields_written := 0,
        panicked := false } }

/-- `Writer::check_field_count` from `src/writer.rs`: when `flexible` is
off, the first completed row fixes `first_field_count`, and any later row
whose running field count differs fails with `UnequalLengths`. -/
def Writer.check_field_count (w : Writer) : Option ErrorKind × Writer :=
  if w.state.flexible then (none, w)
  else
    match w.state.first_field_count with
    | none =>
      (none, { w with state := { w.state with first_field_count := some w.state.fields_written } })
    | some expected =>
      if expected = w.state.fields_written then (none, w)
      else (some (.UnequalLengths expected w.state.fields_written), w)

/-- `Writer::write_terminator` from `src/writer.rs`: run the consistency
check, then emit the terminator bytes and reset `fields_written`. -/
def Writer.write_terminator (w : Writer) (buf : List Nat) : Option ErrorKind × Writer × List Nat :=
  match w.check_field_count with
  | (some e, w) => (some e, w, buf)
  | (none, w) =>
    let (out, core) := w.core.terminator
    (none, { core := core, state := { w.state with fields_written := 0 } }, extend buf 4 out)

/-- `Writer::write_delimiter` from `src/writer.rs`. -/
def Writer.write_delimiter (w : Writer) (buf : List Nat) : Option ErrorKind × Writer × List Nat :=
  let (out, core) := w.core.delimiter
  (none, { w with core := core }, extend buf 2 out)

/-- `Writer::write_field_impl` from `src/writer.rs`: a delimiter first if
this is not the first field of the current row, then the encoded field,
incrementing `fields_written`. -/
def Writer.write_field_impl (w : Writer) (buf : List Nat) (field : List Nat) :
    Option ErrorKind × Writer × List Nat :=
  match (if w.state.fields_written > 0 then w.write_delimiter buf else (none, w, buf)) with
  | (some e, w, buf) => (some e, w, buf)
  | (none, w, buf) =>
    let (out, core) := w.core.field field
    (none,
     { core := core, state := { w.state with fields_written := w.state.fields_written + 1 } },
     extend buf (2 * field.length + 2) out)

/-- `Writer::write_field` from `src/writer.rs`. -/
def Writer.write_field (w : Writer) (buf : List Nat) (field : List Nat) :
    Option ErrorKind × Writer × List Nat :=
  w.write_field_impl buf field

/-- The field loop of `Writer::write_record` from `src/writer.rs`:
`for field in record { self.write_field_impl(buf, field)?; }`. -/
def writeFieldsLoop (w : Writer) (buf : List Nat) : List (List Nat) → Option ErrorKind × Writer × List Nat
  | [] => (none, w, buf)
  | f :: fs =>
    match w.write_field_impl buf f with
    | (some e, w, buf) => (some e, w, buf)
    | (none, w, buf) => writeFieldsLoop w buf fs

/-- `Writer::write_record` from `src/writer.rs`: each field, then the
terminator. -/
def Writer.write_record (w : Writer) (buf : List Nat) (record : List (List Nat)) :
    Option ErrorKind × Writer × List Nat :=
  match writeFieldsLoop w buf record with
  | (some e, w, buf) => (some e, w, buf)
  | (none, w, buf) => w.write_terminator buf

/-- A sequence of `write_record` calls on one writer and one shared buffer,
stopping at the first error (the caller propagates it with `?`). -/
def writeAll (w : Writer) (buf : List Nat) : List (List (List Nat)) → Option ErrorKind × Writer × List Nat
  | [] => (none, w, buf)
  | r :: rs =>
    match w.write_record buf r with
    | (some e, w, buf) => (some e, w, buf)
    | (none, w, buf) => writeAll w buf rs

mutual

/-- Modelled from the spec: the closed shape model of the Structural Value
Protocol (spec sections 6 and 9) consumed by the missing flattening
serializer `src/serializer.rs` — a value is a scalar with a textual
representation, an ordered container, a named-field aggregate, a tagged
variant carrying an ordered or named payload, or an associative map. -/
inductive Value where
  | scalar (s : List Nat)
  | seq (vs : ValueList)
  | aggregate (fs : NamedList)
  | variantSeq (name : List Nat) (vs : ValueList)
  | variantNamed (name : List Nat) (fs : NamedList)
  | map (entries : PairList)

/-- An ordered list of structural values (elements of a sequence/tuple). -/
inductive ValueList where
  | nil
  | cons (v : Value) (tl : ValueList)

/-- A list of named fields of an aggregate (name bytes paired with value). -/
inductive NamedList where
  | nil
  | cons (name : List Nat) (v : Value) (tl : NamedList)

/-- A list of key/value entries of an associative container. -/
inductive PairList where
  | nil
  | cons (k : Value) (v : Value) (tl : PairList)

end

mutual

/-- Modelled from the spec: the data pass of the missing flattening
serializer (`serialize` in `src/serializer.rs`): depth-first flattening of
a value into the raw bytes of its scalar leaves; tagged variants with a
payload and associative containers are rejected shapes and produce a
`Serialize` fault (spec section 4.2). -/
def dataFields : Value → Except String (List (List Nat))
  | .scalar s => .ok [s]
  | .seq vs => dataFieldsList vs
  | .aggregate fs => dataFieldsNamed fs
  | .variantSeq _ _ => .error "serializing enum tuple variants is not supported"
  | .variantNamed _ _ => .error "serializing enum struct variants is not supported"
  | .map _ => .error "serializing maps is not supported"

/-- Data-pass flattening of the elements of an ordered container. -/
def dataFieldsList : ValueList → Except String (List (List Nat))
  | .nil => .ok []
  | .cons v vs =>
    match dataFields v with
    | .error e => .error e
    | .ok a =>
      match dataFieldsList vs with
      | .error e => .error e
      | .ok b => .ok (a ++ b)

/-- Data-pass flattening of the named fields of an aggregate. -/
def dataFieldsNamed : NamedList → Except String (List (List Nat))
  | .nil => .ok []
  | .cons _ v fs =>
    match dataFields v with
    | .error e => .error e
    | .ok a =>
      match dataFieldsNamed fs with
      | .error e => .error e
      | .ok b => .ok (a ++ b)

end

mutual

/-- Whether every leaf reachable from a value is a scalar, with no named
aggregate, variant or map in between — the shape a named field's value must
have during the header pass (spec section 4.2, header restriction 2). -/
def scalarOnly : Value → Bool
  | .scalar _ => true
  | .seq vs => scalarOnlyList vs
  | .aggregate _ => false
  | .variantSeq _ _ => false
  | .variantNamed _ _ => false
  | .map _ => false

/-- `scalarOnly` over the elements of an ordered container. -/
def scalarOnlyList : ValueList → Bool
  | .nil => true
  | .cons v vs => scalarOnly v && scalarOnlyList vs

end

mutual

/-- The number of scalar leaves of a scalar-only value. -/
def leafCount : Value → Nat
  | .scalar _ => 1
  | .seq vs => leafCountList vs
  | .aggregate _ => 0
  | .variantSeq _ _ => 0
  | .variantNamed _ _ => 0
  | .map _ => 0

/-- `leafCount` over the elements of an ordered container. -/
def leafCountList : ValueList → Nat
  | .nil => 0
  | .cons v vs => leafCount v + leafCountList vs

end

mutual

/-- Modelled from the spec: the header pass of the missing flattening
serializer (`serialize_header` in `src/serializer.rs`), as a pure
computation of the header names.  It returns `ok (some names)` — one name
per scalar position in depth-first order — when the value is a named
aggregate satisfying the header restrictions, `ok none` when the value is
not a named aggregate or violates a header-pass restriction (the pass is
aborted, not a hard fault; spec section 4.2), and an error on a rejected
shape. -/
def headerNames : Value → Except String (Option (List (List Nat)))
  | .scalar _ => .ok none
  | .seq vs => headerNamesList vs
  | .aggregate fs => headerNamesNamed fs
  | .variantSeq _ _ => .error "serializing enum tuple variants is not supported"
  | .variantNamed _ _ => .error "serializing enum struct variants is not supported"
  | .map _ => .error "serializing maps is not supported"

/-- Header names over the elements of an ordered container: every element
must itself admit names (spec restriction 1 — a scalar may not appear
inside a bare container unless every element is a named aggregate). -/
def headerNamesList : ValueList → Except String (Option (List (List Nat)))
  | .nil => .ok (some [])
  | .cons v vs =>
    match headerNames v with
    | .error e => .error e
    | .ok none => .ok none
    | .ok (some a) =>
      match headerNamesList vs with
      | .error e => .error e
      | .ok none => .ok none
      | .ok (some b) => .ok (some (a ++ b))

/-- Header names of the named fields of an aggregate: each field's value
must flatten to scalars only and contributes its name once per scalar leaf
reached, in depth-first order (spec section 4.2). -/
def headerNamesNamed : NamedList → Except String (Option (List (List Nat)))
  | .nil => .ok (some [])
  | .cons n v fs =>
    if scalarOnly v then
      match headerNamesNamed fs with
      | .error e => .error e
      | .ok none => .ok none
      | .ok (some b) => .ok (some (List.replicate (leafCount v) n ++ b))
    else .ok none

end

/-- Modelled from the spec: `serialize_header` of the missing
`src/serializer.rs` as driven by the writer — when the header pass computes
names, they are written against the writer exactly like a data row (a
sequence of write-field calls); the returned flag says whether a header was
written. -/
def serializeHeaderPass (w : Writer) (buf : List Nat) (v : Value) :
    Option ErrorKind × Writer × List Nat × Bool :=
  match headerNames v with
  | .error m => (some (.Serialize m), w, buf, false)
  | .ok none => (none, w, buf, false)
  | .ok (some ns) =>
    match writeFieldsLoop w buf ns with
    | (some e, w, buf) => (some e, w, buf, false)
    | (none, w, buf) => (none, w, buf, true)

/-- Modelled from the spec: the data pass `serialize` of the missing
`src/serializer.rs` as driven by the writer — flatten the value and write
each scalar leaf as one field. -/
def serializeDataPass (w : Writer) (buf : List Nat) (v : Value) :
    Option ErrorKind × Writer × List Nat :=
  match dataFields v with
  | .error m => (some (.Serialize m), w, buf)
  | .ok fs => writeFieldsLoop w buf fs

/-- `Writer::serialize` from `src/writer.rs`: on the very first call with
header state `Write`, attempt the header pass — if it wrote a header,
terminate that row and move to `DidWrite`, otherwise move to `DidNotWrite`;
then always write the value's data row followed by a terminator. -/
def Writer.serialize (w : Writer) (buf : List Nat) (record : Value) :
    Option ErrorKind × Writer × List Nat :=
  match (match w.state.header with
         | HeaderState.Write =>
           match serializeHeaderPass w buf record with
           | (some e, w, buf, _) => (some e, w, buf)
           | (none, w, buf, wrote_header) =>
             if wrote_header then
               match w.write_terminator buf with
               | (some e, w, buf) => (some e, w, buf)
               | (none, w, buf) =>
                 (none, { w with state := { w.state with header := HeaderState.DidWrite } }, buf)
             else
               (none, { w with state := { w.state with header := HeaderState.DidNotWrite } }, buf)
         | _ => (none, w, buf)) with
  | (some e, w, buf) => (some e, w, buf)
  | (none, w, buf) =>
    match serializeDataPass w buf record with
    | (some e, w, buf) => (some e, w, buf)
    | (none, w, buf) => w.write_terminator buf

/-- The pull adapter of `src/iter.rs` (`Iter`): the remaining input
sequence paired with the shared writer. -/
structure Iter where
  items : List Value
  writer : Writer

/-- `Iter::next` from `src/iter.rs`: advance the input by one element; if
exhausted produce nothing, otherwise serialize the element into a fresh
buffer and yield the result. -/
def Iter.next (it : Iter) : Option (Except ErrorKind (List Nat)) × Iter :=
  match it.items with
  | [] => (none, it)
  | v :: vs =>
    let (res, w, buf) := it.writer.serialize [] v
    (some (match res with
           | some e => .error e
           | none => .ok buf),
     { items := vs, writer := w })

/-- Driving the pull adapter to exhaustion: the list of yielded items. -/
def runFrom (w : Writer) : List Value → List (Except ErrorKind (List Nat))
  | [] => []
  | v :: vs =>
    match Iter.next { items := v :: vs, writer := w } with
    | (none, _) => []
    | (some item, it) => item :: runFrom it.writer vs

/-- Calling `serialize` for each element in order on a single writer with
one shared buffer, continuing past errors. -/
def serializeAllShared (w : Writer) (buf : List Nat) : List Value → Writer × List Nat
  | [] => (w, buf)
  | v :: vs =>
    let (_, w, buf) := w.serialize buf v
    serializeAllShared w buf vs

/-- Concatenation of the payloads of the successfully yielded buffers. -/
def oksJoin : List (Except ErrorKind (List Nat)) → List Nat
  | [] => []
  | .ok b :: rest => b ++ oksJoin rest
  | .error _ :: rest => oksJoin rest

/-- The readiness state of one poll, mirroring `std::task::Poll`. -/
inductive Poll (α : Type) where
  | ready (a : α)
  | pending
deriving DecidableEq

/-- The push adapter of `src/stream.rs` (`Stream`): an asynchronous source
of structural values paired with the shared writer. -/
structure CsvStreamAdapter where
  writer : Writer

/-- `Stream::poll_next` from `src/stream.rs`, as a function of the wrapped
source's current poll outcome: not-ready and completion propagate; a
yielded value is serialized synchronously into a fresh buffer, and either
the buffer or the serialization error is yielded as a ready item (the `?`
on a `Poll<Option<Result<..>>>` converts an error into
`Ready(Some(Err(e)))`). -/
def CsvStreamAdapter.poll_next (s : CsvStreamAdapter) (upstream : Poll (Option Value)) :
    Poll (Option (Except ErrorKind (List Nat))) × CsvStreamAdapter :=
  match upstream with
  | .pending => (.pending, s)
  | .ready none => (.ready none, s)
  | .ready (some v) =>
    let (res, w, buf) := s.writer.serialize [] v
    (match res with
     | some e => (.ready (some (.error e)), { writer := w })
     | none => (.ready (some (.ok buf)), { writer := w }))

/-- The bytes one row of fields contributes, threading the encoder state:
the first field bare, later fields preceded by a delimiter. -/
def fieldsBytesAux (c : CoreWriter) (first : Bool) : List (List Nat) → List Nat × CoreWriter
  | [] => ([], c)
  | f :: fs =>
    let dc := if first then ([], c) else c.delimiter
    let oc := dc.2.field f
    let rest := fieldsBytesAux oc.2 false fs
    (dc.1 ++ (oc.1 ++ rest.1), rest.2)

/-- The bytes of one complete row (fields then terminator), threading the
encoder state. -/
def rowBytes (c : CoreWriter) (fields : List (List Nat)) : List Nat × CoreWriter :=
  let bc := fieldsBytesAux c true fields
  let tc := bc.2.terminator
  (bc.1 ++ tc.1, tc.2)

theorem extend_eq (buf : List Nat) (cap : Nat) (out : List Nat) (h : out.length ≤ cap) :
    extend buf cap out = buf ++ out := by
  unfold extend
  have hlen : (out ++ List.replicate (cap - out.length) 0).length ≤ cap := by
    simp [Nat.add_sub_cancel' h]
  rw [List.take_of_length_le hlen, List.take_append, List.take_left]

theorem escapeQuotes_length (cfg : CoreConfig) (s : List Nat) :
    (escapeQuotes cfg s).length ≤ 2 * s.length := by
  induction s with
  | nil => simp [escapeQuotes]
  | cons b rest ih =>
    simp only [escapeQuotes, List.length_append, List.length_cons]
    have : (if b == cfg.quote then
             (if cfg.double_quote then [b, b] else [cfg.escape, b])
           else [b]).length ≤ 2 := by
      split
      · split <;> simp
      · simp
    omega

theorem field_out_length (c : CoreWriter) (f : List Nat) :
    ((c.field f).1).length ≤ 2 * f.length + 2 := by
  have := escapeQuotes_length c.config f
  unfold CoreWriter.field
  split
  · simp only [List.length_cons, List.length_append, List.length_nil]
    omega
  · simp only []
    omega

theorem delimiter_out_length (c : CoreWriter) : ((c.delimiter).1).length ≤ 2 := by
  simp [CoreWriter.delimiter]

theorem terminator_out_length (c : CoreWriter) : ((c.terminator).1).length ≤ 4 := by
  unfold CoreWriter.terminator
  cases c.config.term <;> split <;> simp [termBytes]

/-- The field loop never fails, appends exactly the row-body bytes, threads
the encoder state, increments `fields_written` by the number of fields, and
leaves every other component of the writer state untouched. -/
theorem writeFieldsLoop_eq (fs : List (List Nat)) : ∀ (w : Writer) (buf : List Nat),
    writeFieldsLoop w buf fs =
      (none,
       { core := (fieldsBytesAux w.core (w.state.fields_written == 0) fs).2,
         state := { w.state with fields_written := w.state.fields_written + fs.length } },
       buf ++ (fieldsBytesAux w.core (w.state.fields_written == 0) fs).1) := by
  induction fs with
  | nil => intro w buf; simp [writeFieldsLoop, fieldsBytesAux]
  | cons f fs ih =>
    intro w buf
    match hw : w.state.fields_written with
    | 0 =>
      simp only [writeFieldsLoop, Writer.write_field_impl, hw, Nat.lt_irrefl, if_neg,
        gt_iff_lt, ite_false]
      rw [extend_eq _ _ _ (field_out_length _ _)]
      rw [ih]
      simp [fieldsBytesAux, hw, List.append_assoc, Nat.add_comm, Nat.add_left_comm]
    | n + 1 =>
      simp only [writeFieldsLoop, Writer.write_field_impl, hw, gt_iff_lt, Nat.succ_pos,
        ite_true, Writer.write_delimiter]
      rw [extend_eq _ _ _ (delimiter_out_length _)]
      rw [extend_eq _ _ _ (field_out_length _ _)]
      rw [ih]
      simp [fieldsBytesAux, hw, List.append_assoc, Nat.add_comm, Nat.add_left_comm]

theorem write_terminator_flexible (w : Writer) (buf : List Nat)
    (h : w.state.flexible = true) :
    w.write_terminator buf =
      (none,
       { core := (w.core.terminator).2, state := { w.state with fields_written := 0 } },
       buf ++ (w.core.terminator).1) := by
  unfold Writer.write_terminator Writer.check_field_count
  simp [h, extend_eq _ _ _ (terminator_out_length _)]

theorem write_terminator_first (w : Writer) (buf : List Nat)
    (hfx : w.state.flexible = false) (h : w.state.first_field_count = none) :
    w.write_terminator buf =
      (none,
       { core := (w.core.terminator).2,
         state :=
           { w.state with
             first_field_count := some w.state.fields_written
             fields_written := 0 } },
       buf ++ (w.core.terminator).1) := by
  unfold Writer.write_terminator Writer.check_field_count
  simp [h, hfx, extend_eq _ _ _ (terminator_out_length _)]

theorem write_terminator_same (w : Writer) (buf : List Nat)
    (hfx : w.state.flexible = false)
    (h : w.state.first_field_count = some w.state.fields_written) :
    w.write_terminator buf =
      (none,
       { core := (w.core.terminator).2, state := { w.state with fields_written := 0 } },
       buf ++ (w.core.terminator).1) := by
  unfold Writer.write_terminator Writer.check_field_count
  simp [h, hfx, extend_eq _ _ _ (terminator_out_length _)]

theorem write_terminator_mismatch (w : Writer) (buf : List Nat) (c : Nat)
    (hfx : w.state.flexible = false) (h : w.state.first_field_count = some c)
    (hne : c ≠ w.state.fields_written) :
    w.write_terminator buf =
      (some (.UnequalLengths c w.state.fields_written), w, buf) := by
  unfold Writer.write_terminator Writer.check_field_count
  simp [h, hfx, hne]

theorem write_record_first (w : Writer) (buf : List Nat) (fs : List (List Nat))
    (hfx : w.state.flexible = false) (hffc : w.state.first_field_count = none)
    (hfw : w.state.fields_written = 0) :
    w.write_record buf fs =
      (none,
       { core := (rowBytes w.core fs).2,
         state :=
           { w.state with
             first_field_count := some fs.length
             fields_written := 0 } },
       buf ++ (rowBytes w.core fs).1) := by
  unfold Writer.write_record
  rw [writeFieldsLoop_eq]
  simp only [hfw]
  rw [write_terminator_first]
  · simp [rowBytes, List.append_assoc]
  · exact hfx
  · exact hffc

theorem write_record_same (w : Writer) (buf : List Nat) (fs : List (List Nat))
    (hfx : w.state.flexible = false) (hffc : w.state.first_field_count = some fs.length)
    (hfw : w.state.fields_written = 0) :
    w.write_record buf fs =
      (none,
       { core := (rowBytes w.core fs).2,
         state := { w.state with fields_written := 0 } },
       buf ++ (rowBytes w.core fs).1) := by
  unfold Writer.write_record
  rw [writeFieldsLoop_eq]
  simp only [hfw]
  rw [write_terminator_same]
  · simp [rowBytes, List.append_assoc]
  · exact hfx
  · simpa using hffc

theorem write_record_mismatch (w : Writer) (buf : List Nat) (fs : List (List Nat)) (c : Nat)
    (hfx : w.state.flexible = false) (hffc : w.state.first_field_count = some c)
    (hne : c ≠ fs.length) (hfw : w.state.fields_written = 0) :
    w.write_record buf fs =
      (some (.UnequalLengths c fs.length),
       { core := (fieldsBytesAux w.core true fs).2,
         state := { w.state with fields_written := fs.length } },
       buf ++ (fieldsBytesAux w.core true fs).1) := by
  unfold Writer.write_record
  rw [writeFieldsLoop_eq]
  simp only [hfw]
  rw [write_terminator_mismatch _ _ c]
  · simp
  · exact hfx
  · simpa using hffc
  · simpa using hne

theorem write_record_flexible (w : Writer) (buf : List Nat) (fs : List (List Nat))
    (hfx : w.state.flexible = true) (hfw : w.state.fields_written = 0) :
    w.write_record buf fs =
      (none,
       { core := (rowBytes w.core fs).2,
         state := { w.state with fields_written := 0 } },
       buf ++ (rowBytes w.core fs).1) := by
  unfold Writer.write_record
  rw [writeFieldsLoop_eq]
  simp only [hfw]
  rw [write_terminator_flexible]
  · simp [rowBytes, List.append_assoc]
  · exact hfx

theorem writeAll_ok (rows : List (List (List Nat))) : ∀ (w : Writer) (buf : List Nat) (c : Nat),
    w.state.flexible = false → w.state.first_field_count = some c →
    w.state.fields_written = 0 → (∀ r ∈ rows, r.length = c) →
    ∃ w' buf', writeAll w buf rows = (none, w', buf') ∧
      w'.state.flexible = false ∧ w'.state.first_field_count = some c ∧
      w'.state.fields_written = 0 := by
  induction rows with
  | nil => intro w buf c hfx hffc hfw _; exact ⟨w, buf, rfl, hfx, hffc, hfw⟩
  | cons r rs ih =>
    intro w buf c hfx hffc hfw hlen
    have hr : r.length = c := hlen r (by simp)
    have hffc' : w.state.first_field_count = some r.length := by rw [hffc, hr]
    have hrec := write_record_same w buf r hfx hffc' hfw
    simp only [writeAll]
    rw [hrec]
    exact ih _ _ c (by simpa using hfx) (by simpa using hffc) (by simp)
      (fun x hx => hlen x (by simp [hx]))

theorem writeAll_ok_fresh (w : Writer) (buf : List Nat) (r0 : List (List Nat))
    (rows : List (List (List Nat)))
    (hfx : w.state.flexible = false) (hffc : w.state.first_field_count = none)
    (hfw : w.state.fields_written = 0)
    (hlen : ∀ r ∈ rows, r.length = r0.length) :
    ∃ w' buf', writeAll w buf (r0 :: rows) = (none, w', buf') ∧
      w'.state.flexible = false ∧ w'.state.first_field_count = some r0.length ∧
      w'.state.fields_written = 0 := by
  have hrec := write_record_first w buf r0 hfx hffc hfw
  simp only [writeAll]
  rw [hrec]
  exact writeAll_ok rows _ _ r0.length (by simpa using hfx) (by simp) (by simp) hlen

theorem writeAll_append_ok (xs : List (List (List Nat))) :
    ∀ (w : Writer) (buf : List Nat) (w' : Writer) (buf' : List Nat)
      (ys : List (List (List Nat))),
    writeAll w buf xs = (none, w', buf') →
    writeAll w buf (xs ++ ys) = writeAll w' buf' ys := by
  induction xs with
  | nil =>
    intro w buf w' buf' ys h
    simp only [writeAll, Prod.mk.injEq] at h
    simp [h.2.1, h.2.2]
  | cons x xs ih =>
    intro w buf w' buf' ys h
    simp only [writeAll, List.cons_append] at h ⊢
    split at h
    next e w1 buf1 heq => simp at h
    next w1 buf1 heq => exact ih _ _ _ _ _ h

/-- C1: on a writer built with `flexible` off, a sequence of `write_record`
calls in which every row has the same field count returns no error; and if
the rows split as a first row `r0`, rows of matching count `good`, and a
first offending row `bad` of differing count, then all calls up to and
including `good` succeed while the run fails exactly at `bad` with
`UnequalLengths` carrying the first row's count as `expected_len` and the
offending row's count as `len`. -/
theorem write_record_unequal_lengths_at_first_divergence
    (cfg : CoreConfig) (cap : Nat) (hh : Bool) (buf : List Nat)
    (rows : List (List (List Nat))) :
    ((∃ c, ∀ r ∈ rows, r.length = c) →
      (writeAll (Writer.new ⟨cfg, cap, false, hh⟩) buf rows).1 = none) ∧
    (∀ r0 good bad rest, rows = r0 :: (good ++ bad :: rest) →
      (∀ r ∈ r0 :: good, r.length = r0.length) → bad.length ≠ r0.length →
      (writeAll (Writer.new ⟨cfg, cap, false, hh⟩) buf (r0 :: good)).1 = none ∧
      (writeAll (Writer.new ⟨cfg, cap, false, hh⟩) buf rows).1 =
        some (ErrorKind.UnequalLengths r0.length bad.length)) := by
  constructor
  · rintro ⟨c, hc⟩
    cases rows with
    | nil => simp [writeAll]
    | cons r0 rest =>
      have h0 : r0.length = c := hc r0 (by simp)
      obtain ⟨w', buf', heq, -⟩ :=
        writeAll_ok_fresh (Writer.new ⟨cfg, cap, false, hh⟩) buf r0 rest rfl rfl rfl
          (fun r hr => by rw [hc r (List.mem_cons_of_mem _ hr), h0])
      rw [heq]
  · rintro r0 good bad rest rfl hgood hbad
    obtain ⟨w', buf', heq, hfx', hffc', hfw'⟩ :=
      writeAll_ok_fresh (Writer.new ⟨cfg, cap, false, hh⟩) buf r0 good rfl rfl rfl
        (fun r hr => hgood r (List.mem_cons_of_mem _ hr))
    refine ⟨by rw [heq], ?_⟩
    have hsplit : r0 :: (good ++ bad :: rest) = (r0 :: good) ++ (bad :: rest) := by simp
    rw [hsplit, writeAll_append_ok (r0 :: good) _ buf w' buf' (bad :: rest) heq]
    have hrec := write_record_mismatch w' buf' bad r0.length hfx' hffc' (Ne.symm hbad) hfw'
    simp only [writeAll]
    rw [hrec]

/-- Witness for C1: two equal-length rows succeed; a second row of three
fields after a first row of two fields fails with `UnequalLengths 2 3`. -/
theorem write_record_unequal_lengths_at_first_divergence_witness :
    (writeAll
      (Writer.new ⟨⟨44, 34, 92, true, .Necessary, .Any 10⟩, 8192, false, true⟩)
      [] [[[97], [98]], [[99], [100]]]).1 = none ∧
    (writeAll
      (Writer.new ⟨⟨44, 34, 92, true, .Necessary, .Any 10⟩, 8192, false, true⟩)
      [] [[[97], [98]], [[99], [100], [101]]]).1 =
      some (ErrorKind.UnequalLengths 2 3) := by
  constructor
  · exact (write_record_unequal_lengths_at_first_divergence
      ⟨44, 34, 92, true, .Necessary, .Any 10⟩ 8192 true []
      [[[97], [98]], [[99], [100]]]).1 ⟨2, by decide⟩
  · exact ((write_record_unequal_lengths_at_first_divergence
      ⟨44, 34, 92, true, .Necessary, .Any 10⟩ 8192 true []
      [[[97], [98]], [[99], [100], [101]]]).2
      [[97], [98]] [] [[99], [100], [101]] [] rfl (by decide) (by decide)).2

/-- The data-row step of `Writer::serialize`: data pass then terminator. -/
def dataRowStep (w : Writer) (buf : List Nat) (v : Value) : Option ErrorKind × Writer × List Nat :=
  match serializeDataPass w buf v with
  | (some e, w, buf) => (some e, w, buf)
  | (none, w, buf) => w.write_terminator buf

theorem dataRowStep_err (w : Writer) (buf : List Nat) (v : Value) (m : String)
    (hn : dataFields v = .error m) :
    dataRowStep w buf v = (some (.Serialize m), w, buf) := by
  simp [dataRowStep, serializeDataPass, hn]

theorem dataRowStep_ok (w : Writer) (buf : List Nat) (v : Value) (fs : List (List Nat))
    (hn : dataFields v = .ok fs) :
    dataRowStep w buf v = w.write_record buf fs := by
  unfold dataRowStep serializeDataPass Writer.write_record
  rw [hn]

theorem serialize_not_write (w : Writer) (buf : List Nat) (v : Value)
    (h : w.state.header ≠ HeaderState.Write) :
    w.serialize buf v = dataRowStep w buf v := by
  unfold Writer.serialize
  cases hh : w.state.header
  · exact absurd hh h
  all_goals rfl

theorem serialize_write_err (w : Writer) (buf : List Nat) (v : Value) (m : String)
    (hw : w.state.header = HeaderState.Write) (hn : headerNames v = .error m) :
    w.serialize buf v = (some (.Serialize m), w, buf) := by
  unfold Writer.serialize serializeHeaderPass
  rw [hw, hn]

theorem serialize_write_none (w : Writer) (buf : List Nat) (v : Value)
    (hw : w.state.header = HeaderState.Write) (hn : headerNames v = .ok none) :
    w.serialize buf v =
      dataRowStep { w with state := { w.state with header := HeaderState.DidNotWrite } } buf v := by
  unfold Writer.serialize serializeHeaderPass dataRowStep
  rw [hw, hn]
  simp

theorem serialize_write_some (w : Writer) (buf : List Nat) (v : Value) (ns : List (List Nat))
    (hw : w.state.header = HeaderState.Write) (hn : headerNames v = .ok (some ns)) :
    w.serialize buf v =
      (match (match ({ core := (fieldsBytesAux w.core (w.state.fields_written == 0) ns).2,
                       state := { w.state with fields_written := w.state.fields_written + ns.length } }
                     : Writer).write_terminator
                    (buf ++ (fieldsBytesAux w.core (w.state.fields_written == 0) ns).1) with
              | (some e, w1, buf1) => (some e, w1, buf1)
              | (none, w1, buf1) =>
                (none, { w1 with state := { w1.state with header := HeaderState.DidWrite } }, buf1)) with
       | (some e, w2, buf2) => (some e, w2, buf2)
       | (none, w2, buf2) => dataRowStep w2 buf2 v) := by
  unfold Writer.serialize serializeHeaderPass dataRowStep
  rw [hw, hn]
  simp only [writeFieldsLoop_eq, if_true]

theorem write_record_flexible_ok (w : Writer) (buf : List Nat) (fs : List (List Nat))
    (hfx : w.state.flexible = true) :
    (w.write_record buf fs).1 = none ∧ (w.write_record buf fs).2.1.state.flexible = true := by
  unfold Writer.write_record
  simp only [writeFieldsLoop_eq]
  have hterm := write_terminator_flexible
      ({ core := (fieldsBytesAux w.core (w.state.fields_written == 0) fs).2,
         state := { w.state with fields_written := w.state.fields_written + fs.length } } : Writer)
      (buf ++ (fieldsBytesAux w.core (w.state.fields_written == 0) fs).1) (by simpa using hfx)
  rw [hterm]
  simpa using hfx

theorem serialize_flexible_result (w : Writer) (buf : List Nat) (v : Value)
    (hfx : w.state.flexible = true) :
    (w.serialize buf v).1 = none ∨ ∃ m, (w.serialize buf v).1 = some (.Serialize m) := by
  have data_step : ∀ (w2 : Writer) (buf2 : List Nat), w2.state.flexible = true →
      (dataRowStep w2 buf2 v).1 = none ∨ ∃ m, (dataRowStep w2 buf2 v).1 = some (.Serialize m) := by
    intro w2 buf2 hfx2
    rcases hd : dataFields v with m | fs
    · rw [dataRowStep_err _ _ _ _ hd]; exact Or.inr ⟨m, rfl⟩
    · rw [dataRowStep_ok _ _ _ _ hd]
      exact Or.inl (write_record_flexible_ok w2 buf2 fs hfx2).1
  cases hh : w.state.header
  case Write =>
    rcases hn : headerNames v with m | o
    · rw [serialize_write_err w buf v m hh hn]; exact Or.inr ⟨m, rfl⟩
    · match o with
      | none => rw [serialize_write_none w buf v hh hn]; exact data_step _ _ (by simpa using hfx)
      | some ns =>
        rw [serialize_write_some w buf v ns hh hn]
        have hterm := write_terminator_flexible
            ({ core := (fieldsBytesAux w.core (w.state.fields_written == 0) ns).2,
               state := { w.state with fields_written := w.state.fields_written + ns.length } } : Writer)
            (buf ++ (fieldsBytesAux w.core (w.state.fields_written == 0) ns).1) (by simpa using hfx)
        rw [hterm]
        exact data_step _ _ (by simpa using hfx)
  all_goals
    rw [serialize_not_write w buf v (by rw [hh]; simp)]
    exact data_step _ _ hfx

/-- C2: on a writer built with `flexible` on, writing any sequence of rows
of arbitrary field counts via `write_record` returns no error at all, and
no `serialize` call on any flexible writer can return an `UnequalLengths`
error. -/
theorem flexible_never_unequal_lengths
    (cfg : CoreConfig) (cap : Nat) (hh : Bool) (buf : List Nat)
    (rows : List (List (List Nat))) :
    (writeAll (Writer.new ⟨cfg, cap, true, hh⟩) buf rows).1 = none ∧
    (∀ (w : Writer) (buf2 : List Nat) (v : Value) (a b : Nat),
      w.state.flexible = true →
      (w.serialize buf2 v).1 ≠ some (.UnequalLengths a b)) := by
  constructor
  · have main : ∀ (rs : List (List (List Nat))) (w : Writer) (b : List Nat),
        w.state.flexible = true → w.state.fields_written = 0 →
        (writeAll w b rs).1 = none := by
      intro rs
      induction rs with
      | nil => intro w b _ _; rfl
      | cons r rs ih =>
        intro w b hfx hfw
        simp only [writeAll]
        rw [write_record_flexible w b r hfx hfw]
        exact ih _ _ (by simpa using hfx) (by simp)
    exact main rows _ buf rfl rfl
  · intro w buf2 v a b hfx
    rcases serialize_flexible_result w buf2 v hfx with h | ⟨m, h⟩ <;> simp [h]

/-- Witness for C2: rows of two then three fields succeed on a flexible
writer, and a flexible serialize call returns no `UnequalLengths 2 3`. -/
theorem flexible_never_unequal_lengths_witness :
    (writeAll
      (Writer.new ⟨⟨44, 34, 92, true, .Necessary, .Any 10⟩, 8192, true, true⟩)
      [] [[[97], [98]], [[99], [100], [101]]]).1 = none ∧
    ((Writer.new ⟨⟨44, 34, 92, true, .Necessary, .Any 10⟩, 8192, true, true⟩).serialize
      [] (Value.scalar [97])).1 ≠ some (.UnequalLengths 2 3) := by
  refine ⟨(flexible_never_unequal_lengths
      ⟨44, 34, 92, true, .Necessary, .Any 10⟩ 8192 true []
      [[[97], [98]], [[99], [100], [101]]]).1, ?_⟩
  exact (flexible_never_unequal_lengths
      ⟨44, 34, 92, true, .Necessary, .Any 10⟩ 8192 true [] []).2
      (Writer.new ⟨⟨44, 34, 92, true, .Necessary, .Any 10⟩, 8192, true, true⟩)
      [] (Value.scalar [97]) 2 3 rfl

mutual

theorem scalarOnly_dataFields (v : Value) (h : scalarOnly v = true) :
    ∃ ds, dataFields v = .ok ds ∧ ds.length = leafCount v :=
  match v, h with
  | .scalar s, _ => ⟨[s], rfl, rfl⟩
  | .seq vs, h => by
    obtain ⟨ds, hds, hlen⟩ := scalarOnlyList_dataFields vs (by simpa [scalarOnly] using h)
    exact ⟨ds, by simpa [dataFields] using hds, by simpa [leafCount] using hlen⟩
  | .aggregate fs, h => by simp [scalarOnly] at h
  | .variantSeq n vs, h => by simp [scalarOnly] at h
  | .variantNamed n fs, h => by simp [scalarOnly] at h
  | .map es, h => by simp [scalarOnly] at h

theorem scalarOnlyList_dataFields (vs : ValueList) (h : scalarOnlyList vs = true) :
    ∃ ds, dataFieldsList vs = .ok ds ∧ ds.length = leafCountList vs :=
  match vs, h with
  | .nil, _ => ⟨[], rfl, rfl⟩
  | .cons v vs, h => by
    have hv : scalarOnly v = true ∧ scalarOnlyList vs = true := by
      simpa [scalarOnlyList, Bool.and_eq_true] using h
    obtain ⟨a, ha, hal⟩ := scalarOnly_dataFields v hv.1
    obtain ⟨b, hb, hbl⟩ := scalarOnlyList_dataFields vs hv.2
    exact ⟨a ++ b, by simp [dataFieldsList, ha, hb], by simp [leafCountList, hal, hbl]⟩

end

mutual

theorem headerNames_dataFields (v : Value) (ns : List (List Nat))
    (h : headerNames v = .ok (some ns)) :
    ∃ ds, dataFields v = .ok ds ∧ ds.length = ns.length :=
  match v, h with
  | .scalar s, h => by simp [headerNames] at h
  | .seq vs, h => by
    obtain ⟨ds, hds, hlen⟩ := headerNamesList_dataFields vs ns (by simpa [headerNames] using h)
    exact ⟨ds, by simpa [dataFields] using hds, hlen⟩
  | .aggregate fs, h => by
    obtain ⟨ds, hds, hlen⟩ := headerNamesNamed_dataFields fs ns (by simpa [headerNames] using h)
    exact ⟨ds, by simpa [dataFields] using hds, hlen⟩
  | .variantSeq n vs, h => by simp [headerNames] at h
  | .variantNamed n fs, h => by simp [headerNames] at h
  | .map es, h => by simp [headerNames] at h

theorem headerNamesList_dataFields (vs : ValueList) (ns : List (List Nat))
    (h : headerNamesList vs = .ok (some ns)) :
    ∃ ds, dataFieldsList vs = .ok ds ∧ ds.length = ns.length :=
  match vs, h with
  | .nil, h => by
    refine ⟨[], rfl, ?_⟩
    have : ns = ([] : List (List Nat)) := by
      simpa [headerNamesList] using h.symm
    simp [this]
  | .cons v vs, h => by
    rcases hv : headerNames v with m | o
    · rw [headerNamesList, hv] at h; exact absurd h (by simp)
    · match o with
      | none => rw [headerNamesList, hv] at h; exact absurd h (by simp)
      | some a =>
        rcases hvs : headerNamesList vs with m | o2
        · rw [headerNamesList, hv, hvs] at h; exact absurd h (by simp)
        · match o2 with
          | none => rw [headerNamesList, hv, hvs] at h; exact absurd h (by simp)
          | some b =>
            have hns : ns = a ++ b := by
              rw [headerNamesList, hv, hvs] at h
              simpa using h.symm
            obtain ⟨da, hda, hdal⟩ := headerNames_dataFields v a hv
            obtain ⟨db, hdb, hdbl⟩ := headerNamesList_dataFields vs b hvs
            exact ⟨da ++ db, by simp [dataFieldsList, hda, hdb],
              by simp [hns, hdal, hdbl]⟩

theorem headerNamesNamed_dataFields (fs : NamedList) (ns : List (List Nat))
    (h : headerNamesNamed fs = .ok (some ns)) :
    ∃ ds, dataFieldsNamed fs = .ok ds ∧ ds.length = ns.length :=
  match fs, h with
  | .nil, h => by
    refine ⟨[], rfl, ?_⟩
    have : ns = ([] : List (List Nat)) := by
      simpa [headerNamesNamed] using h.symm
    simp [this]
  | .cons n v fs, h => by
    rcases hso : scalarOnly v with _ | _
    · rw [headerNamesNamed, hso] at h
      exact absurd h (by simp)
    · rcases hfs : headerNamesNamed fs with m | o
      · rw [headerNamesNamed, hso, hfs] at h; exact absurd h (by simp)
      · match o with
        | none => rw [headerNamesNamed, hso, hfs] at h; exact absurd h (by simp)
        | some b =>
          have hns : ns = List.replicate (leafCount v) n ++ b := by
            rw [headerNamesNamed, hso, hfs] at h
            simpa using h.symm
          obtain ⟨da, hda, hdal⟩ := scalarOnly_dataFields v hso
          obtain ⟨db, hdb, hdbl⟩ := headerNamesNamed_dataFields fs b hfs
          exact ⟨da ++ db, by simp [dataFieldsNamed, hda, hdb],
            by simp [hns, hdal, hdbl]⟩

end

theorem check_field_count_state (w : Writer) :
    (w.check_field_count).2.state.header = w.state.header ∧
    (w.check_field_count).2.state.flexible = w.state.flexible ∧
    (w.check_field_count).2.state.fields_written = w.state.fields_written ∧
    (w.check_field_count).2.core = w.core := by
  unfold Writer.check_field_count
  rcases hfx : w.state.flexible
  · rcases hffc : w.state.first_field_count with _ | c
    · simp [hfx, hffc]
    · by_cases hc : c = w.state.fields_written <;> simp [hc, hfx, hffc]
  · simp [hfx]

theorem write_terminator_preserves (w : Writer) (buf : List Nat) :
    (w.write_terminator buf).2.1.state.header = w.state.header ∧
    (w.write_terminator buf).2.1.state.flexible = w.state.flexible := by
  unfold Writer.write_terminator
  rcases hc : w.check_field_count with ⟨res, w1⟩
  have h1 := check_field_count_state w
  rw [hc] at h1
  match res with
  | some e => exact ⟨h1.1, h1.2.1⟩
  | none => exact ⟨h1.1, h1.2.1⟩

theorem write_terminator_success_bytes (w : Writer) (buf : List Nat) (w' : Writer)
    (buf' : List Nat) (h : w.write_terminator buf = (none, w', buf')) :
    buf' = buf ++ (w.core.terminator).1 ∧ w'.core = (w.core.terminator).2 ∧
    w'.state.header = w.state.header ∧ w'.state.flexible = w.state.flexible ∧
    w'.state.fields_written = 0 := by
  unfold Writer.write_terminator at h
  rcases hc : w.check_field_count with ⟨res, w1⟩
  have h1 := check_field_count_state w
  rw [hc] at h h1
  match res with
  | some e => simp at h
  | none =>
    simp only [Prod.mk.injEq] at h
    obtain ⟨-, hw, hbuf⟩ := h
    have hcore : w1.core = w.core := h1.2.2.2
    have hhd : w1.state.header = w.state.header := h1.1
    have hfx : w1.state.flexible = w.state.flexible := h1.2.1
    rw [← hw, ← hbuf]
    rw [extend_eq _ _ _ (terminator_out_length _)]
    simp [hcore, hhd, hfx]

theorem write_record_preserves (w : Writer) (buf : List Nat) (fs : List (List Nat)) :
    (w.write_record buf fs).2.1.state.header = w.state.header ∧
    (w.write_record buf fs).2.1.state.flexible = w.state.flexible := by
  unfold Writer.write_record
  simp only [writeFieldsLoop_eq]
  have := write_terminator_preserves
      ({ core := (fieldsBytesAux w.core (w.state.fields_written == 0) fs).2,
         state := { w.state with fields_written := w.state.fields_written + fs.length } } : Writer)
      (buf ++ (fieldsBytesAux w.core (w.state.fields_written == 0) fs).1)
  simpa using this

theorem write_record_success_bytes (w : Writer) (buf : List Nat) (fs : List (List Nat))
    (w' : Writer) (buf' : List Nat) (hfw : w.state.fields_written = 0)
    (h : w.write_record buf fs = (none, w', buf')) :
    buf' = buf ++ (rowBytes w.core fs).1 ∧ w'.core = (rowBytes w.core fs).2 := by
  unfold Writer.write_record at h
  rw [writeFieldsLoop_eq] at h
  simp only [hfw] at h
  obtain ⟨hb, hcore, -, -, -⟩ := write_terminator_success_bytes _ _ _ _ h
  constructor
  · rw [hb]; simp [rowBytes, List.append_assoc]
  · rw [hcore]; simp [rowBytes]

theorem dataRowStep_preserves (w : Writer) (buf : List Nat) (v : Value) :
    (dataRowStep w buf v).2.1.state.header = w.state.header ∧
    (dataRowStep w buf v).2.1.state.flexible = w.state.flexible := by
  rcases hd : dataFields v with m | fs
  · rw [dataRowStep_err _ _ _ _ hd]; exact ⟨rfl, rfl⟩
  · rw [dataRowStep_ok _ _ _ _ hd]; exact write_record_preserves w buf fs

theorem dataRowStep_success_bytes (w : Writer) (buf : List Nat) (v : Value)
    (w' : Writer) (buf' : List Nat) (hfw : w.state.fields_written = 0)
    (h : dataRowStep w buf v = (none, w', buf')) :
    ∃ ds, dataFields v = .ok ds ∧ buf' = buf ++ (rowBytes w.core ds).1 := by
  rcases hd : dataFields v with m | fs
  · rw [dataRowStep_err _ _ _ _ hd] at h; simp at h
  · rw [dataRowStep_ok _ _ _ _ hd] at h
    exact ⟨fs, rfl, (write_record_success_bytes w buf fs w' buf' hfw h).1⟩

theorem serialize_first_header (w : Writer) (buf : List Nat) (v : Value)
    (ns : List (List Nat))
    (hw : w.state.header = HeaderState.Write)
    (hffc : w.state.first_field_count = none)
    (hfw : w.state.fields_written = 0)
    (hn : headerNames v = .ok (some ns)) :
    ∃ ds, dataFields v = .ok ds ∧
      (w.serialize buf v).1 = none ∧
      (w.serialize buf v).2.2 =
        buf ++ (rowBytes w.core ns).1 ++ (rowBytes (rowBytes w.core ns).2 ds).1 ∧
      (w.serialize buf v).2.1.state.header = HeaderState.DidWrite := by
  obtain ⟨ds, hds, hlen⟩ := headerNames_dataFields v ns hn
  refine ⟨ds, hds, ?_⟩
  rw [serialize_write_some w buf v ns hw hn]
  simp only [hfw]
  by_cases hfx : w.state.flexible = true
  · have hterm := write_terminator_flexible
        ({ core := (fieldsBytesAux w.core (0 == 0) ns).2,
           state := { w.state with fields_written := 0 + ns.length } } : Writer)
        (buf ++ (fieldsBytesAux w.core (0 == 0) ns).1) (by simpa using hfx)
    rw [hterm]
    simp only []
    rw [dataRowStep_ok _ _ _ _ hds]
    have hrec := write_record_flexible
        ({ core := ((fieldsBytesAux w.core (0 == 0) ns).2.terminator).2,
           state :=
             { header := HeaderState.DidWrite
               flexible := w.state.flexible
               first_field_count := w.state.first_field_count
               fields_written := 0
               panicked := w.state.panicked } } : Writer)
        ((buf ++ (fieldsBytesAux w.core (0 == 0) ns).1) ++
          ((fieldsBytesAux w.core (0 == 0) ns).2.terminator).1)
        ds (by simpa using hfx) rfl
    rw [hrec]
    simp [rowBytes, List.append_assoc]
  · have hfx' : w.state.flexible = false := by
      revert hfx; rcases w.state.flexible <;> simp
    have hterm := write_terminator_first
        ({ core := (fieldsBytesAux w.core (0 == 0) ns).2,
           state := { w.state with fields_written := 0 + ns.length } } : Writer)
        (buf ++ (fieldsBytesAux w.core (0 == 0) ns).1) (by simpa using hfx')
        (by simpa using hffc)
    rw [hterm]
    simp only []
    rw [dataRowStep_ok _ _ _ _ hds]
    have hrec := write_record_same
        ({ core := ((fieldsBytesAux w.core (0 == 0) ns).2.terminator).2,
           state :=
             { header := HeaderState.DidWrite
               flexible := w.state.flexible
               first_field_count := some (0 + ns.length)
               fields_written := 0
               panicked := w.state.panicked } } : Writer)
        ((buf ++ (fieldsBytesAux w.core (0 == 0) ns).1) ++
          ((fieldsBytesAux w.core (0 == 0) ns).2.terminator).1)
        ds (by simpa using hfx') (by simp [hlen]) rfl
    rw [hrec]
    simp [rowBytes, List.append_assoc]

theorem serialize_preserves_header (w : Writer) (buf : List Nat) (v : Value)
    (h : w.state.header ≠ HeaderState.Write) :
    (w.serialize buf v).2.1.state.header = w.state.header := by
  rw [serialize_not_write w buf v h]
  exact (dataRowStep_preserves w buf v).1

theorem serialize_not_write_success_bytes (w : Writer) (buf : List Nat) (v : Value)
    (w' : Writer) (buf' : List Nat) (h : w.state.header ≠ HeaderState.Write)
    (hfw : w.state.fields_written = 0) (hs : w.serialize buf v = (none, w', buf')) :
    ∃ ds, dataFields v = .ok ds ∧ buf' = buf ++ (rowBytes w.core ds).1 := by
  rw [serialize_not_write w buf v h] at hs
  exact dataRowStep_success_bytes w buf v w' buf' hfw hs

theorem serialize_write_transition (w : Writer) (buf : List Nat) (v : Value)
    (hw : w.state.header = HeaderState.Write) (hs : (w.serialize buf v).1 = none) :
    (w.serialize buf v).2.1.state.header = HeaderState.DidWrite ∨
    (w.serialize buf v).2.1.state.header = HeaderState.DidNotWrite := by
  rcases hn : headerNames v with m | o
  · rw [serialize_write_err w buf v m hw hn] at hs; simp at hs
  · match o with
    | none =>
      rw [serialize_write_none w buf v hw hn]
      right
      exact (dataRowStep_preserves
        { w with state := { w.state with header := HeaderState.DidNotWrite } } buf v).1
    | some ns =>
      rw [serialize_write_some w buf v ns hw hn] at hs ⊢
      rcases ht : ({ core := (fieldsBytesAux w.core (w.state.fields_written == 0) ns).2,
                     state := { w.state with fields_written := w.state.fields_written + ns.length } }
                   : Writer).write_terminator
                   (buf ++ (fieldsBytesAux w.core (w.state.fields_written == 0) ns).1)
        with ⟨res, w1, buf1⟩
      match res with
      | some e => rw [ht] at hs; simp at hs
      | none =>
        left
        exact (dataRowStep_preserves
          { w1 with state := { w1.state with header := HeaderState.DidWrite } } buf1 v).1

/-- C3: with header emission enabled, the first `serialize` call whose
header pass computes names writes exactly one header row immediately before
that call's data row and moves the header state to `DidWrite`; every call
made in a non-`Write` header state leaves the header state unchanged and,
on success, appends exactly one data row and no header row; and a
successful call from the `Write` state always leaves the terminal state
`DidWrite` or `DidNotWrite`, so `Write` is never re-entered. -/
theorem serialize_header_once_before_first_data_row :
    (∀ (cfg : CoreConfig) (cap : Nat) (fx : Bool) (buf : List Nat) (v : Value)
       (ns : List (List Nat)),
      headerNames v = .ok (some ns) →
      ∃ ds, dataFields v = .ok ds ∧
        ((Writer.new ⟨cfg, cap, fx, true⟩).serialize buf v).1 = none ∧
        ((Writer.new ⟨cfg, cap, fx, true⟩).serialize buf v).2.2 =
          buf ++ (rowBytes (Writer.new ⟨cfg, cap, fx, true⟩).core ns).1 ++
            (rowBytes (rowBytes (Writer.new ⟨cfg, cap, fx, true⟩).core ns).2 ds).1 ∧
        ((Writer.new ⟨cfg, cap, fx, true⟩).serialize buf v).2.1.state.header =
          HeaderState.DidWrite) ∧
    (∀ (w : Writer) (buf : List Nat) (v : Value), w.state.header ≠ HeaderState.Write →
      (w.serialize buf v).2.1.state.header = w.state.header ∧
      (∀ w' buf', w.state.fields_written = 0 → w.serialize buf v = (none, w', buf') →
        ∃ ds, dataFields v = .ok ds ∧ buf' = buf ++ (rowBytes w.core ds).1)) ∧
    (∀ (w : Writer) (buf : List Nat) (v : Value), w.state.header = HeaderState.Write →
      (w.serialize buf v).1 = none →
      (w.serialize buf v).2.1.state.header = HeaderState.DidWrite ∨
      (w.serialize buf v).2.1.state.header = HeaderState.DidNotWrite) := by
  refine ⟨?_, ?_, ?_⟩
  · intro cfg cap fx buf v ns hn
    exact serialize_first_header (Writer.new ⟨cfg, cap, fx, true⟩) buf v ns rfl rfl rfl hn
  · intro w buf v h
    exact ⟨serialize_preserves_header w buf v h,
      fun w' buf' hfw hs => serialize_not_write_success_bytes w buf v w' buf' h hfw hs⟩
  · exact serialize_write_transition

/-- Witness for C3: serializing the aggregate with one field named `a` on a
fresh default writer succeeds and ends in `DidWrite`. -/
theorem serialize_header_once_before_first_data_row_witness :
    ((Writer.new ⟨⟨44, 34, 92, true, .Necessary, .Any 10⟩, 8192, false, true⟩).serialize
      [] (Value.aggregate (.cons [97] (.scalar [49]) .nil))).1 = none ∧
    ((Writer.new ⟨⟨44, 34, 92, true, .Necessary, .Any 10⟩, 8192, false, true⟩).serialize
      [] (Value.aggregate (.cons [97] (.scalar [49]) .nil))).2.1.state.header =
      HeaderState.DidWrite := by
  obtain ⟨ds, hds, h1, h2, h3⟩ :=
    serialize_header_once_before_first_data_row.1
      ⟨44, 34, 92, true, .Necessary, .Any 10⟩ 8192 false []
      (Value.aggregate (.cons [97] (.scalar [49]) .nil)) [[97]] rfl
  exact ⟨h1, h3⟩

/-- C4: on the first `serialize` call with header emission enabled, a value
whose header pass aborts (it is not a named aggregate or violates a
header-pass restriction) is not a hard fault: the call succeeds, the header
state moves to `DidNotWrite`, no header row is emitted, and the value's
data row is written in that same call. -/
theorem serialize_header_abort_still_writes_data
    (cfg : CoreConfig) (cap : Nat) (fx : Bool) (buf : List Nat) (v : Value)
    (ds : List (List Nat))
    (hn : headerNames v = .ok none) (hd : dataFields v = .ok ds) :
    ((Writer.new ⟨cfg, cap, fx, true⟩).serialize buf v).1 = none ∧
    ((Writer.new ⟨cfg, cap, fx, true⟩).serialize buf v).2.2 =
      buf ++ (rowBytes (Writer.new ⟨cfg, cap, fx, true⟩).core ds).1 ∧
    ((Writer.new ⟨cfg, cap, fx, true⟩).serialize buf v).2.1.state.header =
      HeaderState.DidNotWrite := by
  rw [serialize_write_none _ buf v rfl hn]
  rw [dataRowStep_ok _ _ _ _ hd]
  cases fx
  · have hrec := write_record_first
        ({ Writer.new ⟨cfg, cap, false, true⟩ with
           state := { (Writer.new ⟨cfg, cap, false, true⟩).state with
                      header := HeaderState.DidNotWrite } } : Writer)
        buf ds rfl rfl rfl
    rw [hrec]
    refine ⟨rfl, by simp, rfl⟩
  · have hrec := write_record_flexible
        ({ Writer.new ⟨cfg, cap, true, true⟩ with
           state := { (Writer.new ⟨cfg, cap, true, true⟩).state with
                      header := HeaderState.DidNotWrite } } : Writer)
        buf ds rfl rfl
    rw [hrec]
    refine ⟨rfl, by simp, rfl⟩

/-- Witness for C4: serializing a bare scalar (which violates the
header-pass restriction that every scalar be reached through a named field)
on a fresh default writer succeeds, writes the data row, and ends in
`DidNotWrite`. -/
theorem serialize_header_abort_still_writes_data_witness :
    ((Writer.new ⟨⟨44, 34, 92, true, .Necessary, .Any 10⟩, 8192, false, true⟩).serialize
      [] (Value.scalar [104])).1 = none ∧
    ((Writer.new ⟨⟨44, 34, 92, true, .Necessary, .Any 10⟩, 8192, false, true⟩).serialize
      [] (Value.scalar [104])).2.1.state.header = HeaderState.DidNotWrite := by
  obtain ⟨h1, h2, h3⟩ :=
    serialize_header_abort_still_writes_data
      ⟨44, 34, 92, true, .Necessary, .Any 10⟩ 8192 false [] (Value.scalar [104])
      [[104]] rfl rfl
  exact ⟨h1, h3⟩

theorem rowBytes_empty_row (cfg : CoreConfig) :
    (rowBytes ⟨cfg, 0⟩ []).1 = (rowBytes ⟨cfg, 0⟩ [[]]).1 ∧
    (cfg.style ≠ QuoteStyle.Never →
      (rowBytes ⟨cfg, 0⟩ []).1 = [cfg.quote, cfg.quote] ++ termBytes cfg.term) := by
  rcases hst : cfg.style <;>
    simp [rowBytes, fieldsBytesAux, CoreWriter.field, CoreWriter.terminator, shouldQuote,
      escapeQuotes, isNumericBytes, hst]

/-- C5: on a fresh writer, `write_record` with zero fields appends exactly
the same bytes as `write_record` with one empty field, neither call errors,
and when the quote style is not `Never` those bytes are a quoted empty
field followed by the terminator. -/
theorem write_record_empty_equals_single_empty_field
    (cfg : CoreConfig) (cap : Nat) (fx hh : Bool) (buf : List Nat) :
    ((Writer.new ⟨cfg, cap, fx, hh⟩).write_record buf ([] : List (List Nat))).2.2 =
      ((Writer.new ⟨cfg, cap, fx, hh⟩).write_record buf [[]]).2.2 ∧
    ((Writer.new ⟨cfg, cap, fx, hh⟩).write_record buf ([] : List (List Nat))).1 = none ∧
    ((Writer.new ⟨cfg, cap, fx, hh⟩).write_record buf [[]]).1 = none ∧
    (cfg.style ≠ QuoteStyle.Never →
      ((Writer.new ⟨cfg, cap, fx, hh⟩).write_record buf ([] : List (List Nat))).2.2 =
        buf ++ [cfg.quote, cfg.quote] ++ termBytes cfg.term) := by
  have hrow := rowBytes_empty_row cfg
  cases fx
  · have h1 := write_record_first (Writer.new ⟨cfg, cap, false, hh⟩) buf [] rfl rfl rfl
    have h2 := write_record_first (Writer.new ⟨cfg, cap, false, hh⟩) buf [[]] rfl rfl rfl
    rw [h1, h2]
    simp only [Writer.new]
    refine ⟨by rw [hrow.1], trivial, trivial, fun hq => ?_⟩
    rw [hrow.2 hq]
    simp
  · have h1 := write_record_flexible (Writer.new ⟨cfg, cap, true, hh⟩) buf [] rfl rfl
    have h2 := write_record_flexible (Writer.new ⟨cfg, cap, true, hh⟩) buf [[]] rfl rfl
    rw [h1, h2]
    simp only [Writer.new]
    refine ⟨by rw [hrow.1], trivial, trivial, fun hq => ?_⟩
    rw [hrow.2 hq]
    simp

/-- Witness for C5: with the default configuration, a zero-field first
record renders as a quoted empty field and terminator, matching the
single-empty-field record. -/
theorem write_record_empty_equals_single_empty_field_witness :
    ((Writer.new ⟨⟨44, 34, 92, true, .Necessary, .Any 10⟩, 8192, false, true⟩).write_record
      [] ([] : List (List Nat))).2.2 = [34, 34, 10] ∧
    ((Writer.new ⟨⟨44, 34, 92, true, .Necessary, .Any 10⟩, 8192, false, true⟩).write_record
      [] [[]]).2.2 = [34, 34, 10] := by
  have h := write_record_empty_equals_single_empty_field
    ⟨44, 34, 92, true, .Necessary, .Any 10⟩ 8192 false true []
  have h4 := h.2.2.2 (by decide)
  refine ⟨by simpa using h4, ?_⟩
  rw [← h.1]
  simpa using h4

/-- C6: an `UnequalLengths` failure is returned as a value (the operations
are total functions into a result, never an unwinding fault), and the
counters are not corrupted: a failing `check_field_count` returns the
writer unchanged, a failing `write_terminator` returns the writer and
buffer unchanged, and a failing `write_record` returns the writer exactly
as it stood immediately before the failing check — `first_field_count`
untouched and `fields_written` equal to its previous value plus the number
of fields of the offending row. -/
theorem unequal_lengths_error_preserves_state :
    (∀ (w : Writer) (a b : Nat), (w.check_field_count).1 = some (.UnequalLengths a b) →
      (w.check_field_count).2 = w) ∧
    (∀ (w : Writer) (buf : List Nat) (a b : Nat),
      (w.write_terminator buf).1 = some (.UnequalLengths a b) →
      (w.write_terminator buf).2 = (w, buf)) ∧
    (∀ (w : Writer) (buf : List Nat) (fs : List (List Nat)) (a b : Nat),
      (w.write_record buf fs).1 = some (.UnequalLengths a b) →
      (w.write_record buf fs).2.1.state.first_field_count = w.state.first_field_count ∧
      (w.write_record buf fs).2.1.state.fields_written =
        w.state.fields_written + fs.length) := by
  have L1 : ∀ (w : Writer) (a b : Nat),
      (w.check_field_count).1 = some (.UnequalLengths a b) → (w.check_field_count).2 = w := by
    intro w a b h
    unfold Writer.check_field_count at h ⊢
    rcases hfx : w.state.flexible
    · rcases hffc : w.state.first_field_count with _ | c
      · simp [hfx, hffc] at h
      · by_cases hc : c = w.state.fields_written
        · simp [hfx, hffc, hc] at h
        · simp [hfx, hffc, hc]
    · simp [hfx] at h
  have L2 : ∀ (w : Writer) (buf : List Nat) (a b : Nat),
      (w.write_terminator buf).1 = some (.UnequalLengths a b) →
      (w.write_terminator buf).2 = (w, buf) := by
    intro w buf a b h
    unfold Writer.write_terminator at h ⊢
    rcases hc : w.check_field_count with ⟨res, w1⟩
    rw [hc] at h
    match res with
    | none => simp at h
    | some e =>
      have he : e = ErrorKind.UnequalLengths a b := by simpa using h
      have hw1 : w1 = w := by
        have := L1 w a b (by rw [hc, he])
        rw [hc] at this
        exact this
      rw [hw1]
  refine ⟨L1, L2, ?_⟩
  intro w buf fs a b h
  unfold Writer.write_record at h ⊢
  simp only [writeFieldsLoop_eq] at h ⊢
  have h2 := L2 _ _ a b h
  rw [h2]
  simp

/-- Witness for C6: a terminator that fails with `UnequalLengths 1 0`
returns the writer and buffer unchanged. -/
theorem unequal_lengths_error_preserves_state_witness :
    (({ core := ⟨⟨44, 34, 92, true, .Necessary, .Any 10⟩, 0⟩,
        state := ⟨.None, false, some 1, 0, false⟩ } : Writer).write_terminator
      [97, 10]).2 =
      (({ core := ⟨⟨44, 34, 92, true, .Necessary, .Any 10⟩, 0⟩,
          state := ⟨.None, false, some 1, 0, false⟩ } : Writer), [97, 10]) := by
  exact unequal_lengths_error_preserves_state.2.1
    ({ core := ⟨⟨44, 34, 92, true, .Necessary, .Any 10⟩, 0⟩,
       state := ⟨.None, false, some 1, 0, false⟩ } : Writer)
    [97, 10] 1 0 (by decide)

/-- C10: when `write_terminator` fails with its consistency check, the
caller's buffer is completely unchanged (the check runs before any
terminator bytes are written); when `write_record` fails, the buffer holds
exactly the original bytes plus all the offending row's encoded fields,
with no terminator bytes appended. -/
theorem failed_write_leaves_fields_no_terminator :
    (∀ (w : Writer) (buf : List Nat) (e : ErrorKind),
      (w.write_terminator buf).1 = some e → (w.write_terminator buf).2.2 = buf) ∧
    (∀ (w : Writer) (buf : List Nat) (fs : List (List Nat)) (e : ErrorKind),
      (w.write_record buf fs).1 = some e →
      (w.write_record buf fs).2.2 = (writeFieldsLoop w buf fs).2.2 ∧
      (w.write_record buf fs).2.2 =
        buf ++ (fieldsBytesAux w.core (w.state.fields_written == 0) fs).1) := by
  have L1 : ∀ (w : Writer) (buf : List Nat) (e : ErrorKind),
      (w.write_terminator buf).1 = some e → (w.write_terminator buf).2.2 = buf := by
    intro w buf e h
    unfold Writer.write_terminator at h ⊢
    rcases hc : w.check_field_count with ⟨res, w1⟩
    rw [hc] at h
    match res with
    | none => simp at h
    | some e2 => rfl
  refine ⟨L1, ?_⟩
  intro w buf fs e h
  unfold Writer.write_record at h ⊢
  simp only [writeFieldsLoop_eq] at h ⊢
  exact ⟨L1 _ _ e h, L1 _ _ e h⟩

/-- Witness for C10: a two-field record failing against a baseline of one
field leaves exactly the two encoded fields and delimiter in the buffer,
with no terminator byte. -/
theorem failed_write_leaves_fields_no_terminator_witness :
    (({ core := ⟨⟨44, 34, 92, true, .Necessary, .Any 10⟩, 0⟩,
        state := ⟨.None, false, some 1, 0, false⟩ } : Writer).write_record
      [] [[97], [98]]).2.2 = [97, 44, 98] := by
  have h := failed_write_leaves_fields_no_terminator.2
    ({ core := ⟨⟨44, 34, 92, true, .Necessary, .Any 10⟩, 0⟩,
       state := ⟨.None, false, some 1, 0, false⟩ } : Writer)
    [] [[97], [98]] (ErrorKind.UnequalLengths 1 2) (by decide)
  rw [h.2]
  decide

theorem extend_append (buf : List Nat) (cap : Nat) (out : List Nat) :
    extend buf cap out = buf ++ extend [] cap out := by
  unfold extend
  simp [List.take_append]

theorem write_terminator_append (w : Writer) (buf : List Nat) :
    w.write_terminator buf =
      ((w.write_terminator []).1, (w.write_terminator []).2.1,
       buf ++ (w.write_terminator []).2.2) := by
  unfold Writer.write_terminator
  rcases hc : w.check_field_count with ⟨res, w1⟩
  match res with
  | some e => simp
  | none => simp [extend_append buf 4]

theorem write_record_append (w : Writer) (buf : List Nat) (fs : List (List Nat)) :
    w.write_record buf fs =
      ((w.write_record [] fs).1, (w.write_record [] fs).2.1,
       buf ++ (w.write_record [] fs).2.2) := by
  unfold Writer.write_record
  simp only [writeFieldsLoop_eq]
  rw [write_terminator_append _
      (buf ++ (fieldsBytesAux w.core (w.state.fields_written == 0) fs).1),
    write_terminator_append _
      ([] ++ (fieldsBytesAux w.core (w.state.fields_written == 0) fs).1)]
  rcases ht : (({ core := (fieldsBytesAux w.core (w.state.fields_written == 0) fs).2,
                  state := { w.state with
                             fields_written := w.state.fields_written + fs.length } }
                : Writer).write_terminator []) with ⟨r0, w0, b0⟩
  match r0 with
  | some e => simp
  | none => simp [List.append_assoc]

theorem dataRowStep_append (w : Writer) (buf : List Nat) (v : Value) :
    dataRowStep w buf v =
      ((dataRowStep w [] v).1, (dataRowStep w [] v).2.1,
       buf ++ (dataRowStep w [] v).2.2) := by
  rcases hd : dataFields v with m | fs
  · rw [dataRowStep_err _ _ _ _ hd, dataRowStep_err _ _ _ _ hd]; simp
  · rw [dataRowStep_ok _ _ _ _ hd, dataRowStep_ok _ _ _ _ hd]
    exact write_record_append w buf fs

theorem serialize_append (w : Writer) (buf : List Nat) (v : Value) :
    w.serialize buf v =
      ((w.serialize [] v).1, (w.serialize [] v).2.1,
       buf ++ (w.serialize [] v).2.2) := by
  cases hh : w.state.header
  case Write =>
    rcases hn : headerNames v with m | o
    · rw [serialize_write_err w buf v m hh hn, serialize_write_err w [] v m hh hn]; simp
    · match o with
      | none =>
        rw [serialize_write_none w buf v hh hn, serialize_write_none w [] v hh hn]
        exact dataRowStep_append _ buf v
      | some ns =>
        rw [serialize_write_some w buf v ns hh hn, serialize_write_some w [] v ns hh hn]
        rw [write_terminator_append _
            (buf ++ (fieldsBytesAux w.core (w.state.fields_written == 0) ns).1),
          write_terminator_append _
            ([] ++ (fieldsBytesAux w.core (w.state.fields_written == 0) ns).1)]
        rcases ht : (({ core := (fieldsBytesAux w.core (w.state.fields_written == 0) ns).2,
                        state := { w.state with
                                   fields_written := w.state.fields_written + ns.length } }
                      : Writer).write_terminator []) with ⟨r0, w0, b0⟩
        match r0 with
        | some e => simp
        | none =>
          simp only []
          rw [dataRowStep_append _
              (buf ++ (fieldsBytesAux w.core (w.state.fields_written == 0) ns).1 ++ b0)]
          rw [dataRowStep_append _
              ([] ++ (fieldsBytesAux w.core (w.state.fields_written == 0) ns).1 ++ b0)]
          simp [List.append_assoc]
  all_goals
    rw [serialize_not_write w buf v (by rw [hh]; simp),
      serialize_not_write w [] v (by rw [hh]; simp)]
    exact dataRowStep_append _ buf v

theorem Iter_next_cons (v : Value) (vs : List Value) (w : Writer) :
    Iter.next ⟨v :: vs, w⟩ =
      (some (match (w.serialize [] v).1 with
             | some e => .error e
             | none => .ok (w.serialize [] v).2.2),
       ⟨vs, (w.serialize [] v).2.1⟩) := by
  unfold Iter.next
  rcases hs : w.serialize [] v with ⟨res, w', buf⟩
  match res with
  | some e => simp [hs]
  | none => simp [hs]

theorem runFrom_cons (w : Writer) (v : Value) (vs : List Value) :
    runFrom w (v :: vs) =
      (match (w.serialize [] v).1 with
       | some e => Except.error e
       | none => Except.ok (w.serialize [] v).2.2) :: runFrom (w.serialize [] v).2.1 vs := by
  conv_lhs => rw [runFrom]
  rw [Iter_next_cons]

theorem serializeAllShared_cons (w : Writer) (buf : List Nat) (v : Value) (vs : List Value) :
    serializeAllShared w buf (v :: vs) =
      serializeAllShared (w.serialize buf v).2.1 (w.serialize buf v).2.2 vs := by
  rcases hs : w.serialize buf v with ⟨res, w', buf'⟩
  simp [serializeAllShared, hs]

theorem serializeAllShared_shift (vs : List Value) : ∀ (w : Writer) (buf : List Nat),
    (serializeAllShared w buf vs).2 = buf ++ (serializeAllShared w [] vs).2 := by
  induction vs with
  | nil => intro w buf; simp [serializeAllShared]
  | cons v vs ih =>
    intro w buf
    rw [serializeAllShared_cons, serializeAllShared_cons w []]
    rw [serialize_append w buf v]
    simp only []
    rw [ih ((w.serialize [] v).2.1) (buf ++ (w.serialize [] v).2.2)]
    rw [ih ((w.serialize [] v).2.1) ((w.serialize [] v).2.2)]
    simp [List.append_assoc]

/-- C7 (amended): the pull adapter yields one item per input element in
order, each item being the result of serializing that element with the
shared writer into a fresh buffer; and when every element serializes
successfully, the concatenation of the yielded buffers equals the bytes
produced by calling serialize for each element in order on one writer with
one shared buffer.  (The all-success hypothesis is needed: a failing call's
partial bytes stay in the shared buffer but its fresh buffer is dropped.) -/
theorem iter_per_element_and_success_concatenation (w : Writer) (vs : List Value) :
    (runFrom w vs).length = vs.length ∧
    (∀ v rest, vs = v :: rest →
      (runFrom w vs).head? =
        some (match (w.serialize [] v).1 with
              | some e => Except.error e
              | none => Except.ok (w.serialize [] v).2.2)) ∧
    ((∀ x ∈ runFrom w vs, ∃ b, x = .ok b) →
      oksJoin (runFrom w vs) = (serializeAllShared w [] vs).2) := by
  refine ⟨?_, ?_, ?_⟩
  · induction vs generalizing w with
    | nil => rfl
    | cons v vs ih => rw [runFrom_cons]; simp [ih]
  · rintro v rest rfl
    rw [runFrom_cons]
    rfl
  · induction vs generalizing w with
    | nil => intro _; rfl
    | cons v vs ih =>
      intro hall
      rw [runFrom_cons] at hall ⊢
      rw [serializeAllShared_cons]
      rcases hs : (w.serialize [] v) with ⟨res, w', out⟩
      match res with
      | some e =>
        exfalso
        obtain ⟨b, hb⟩ := hall _ (List.mem_cons_self _ _)
        rw [hs] at hb
        simp at hb
      | none =>
        rw [hs] at hall
        simp only [] at hall ⊢
        have hrest : ∀ x ∈ runFrom w' vs, ∃ b, x = Except.ok b := by
          intro x hx
          exact hall _ (List.mem_cons_of_mem _ hx)
        simp only [oksJoin]
        rw [ih w' hrest]
        rw [serializeAllShared_shift vs w' out]

/-- C7 counterexample: with a failing second element, the concatenation of
the successfully yielded buffers differs from the shared-buffer bytes — the
offending row's fields remain only in the shared buffer. -/
theorem iter_concatenation_counterexample :
    oksJoin (runFrom
        (Writer.new ⟨⟨44, 34, 92, true, .Necessary, .Any 10⟩, 8192, false, true⟩)
        [Value.aggregate (.cons [97] (.scalar [49]) .nil),
         Value.aggregate (.cons [97] (.scalar [50]) (.cons [98] (.scalar [51]) .nil))]) ≠
      (serializeAllShared
        (Writer.new ⟨⟨44, 34, 92, true, .Necessary, .Any 10⟩, 8192, false, true⟩) []
        [Value.aggregate (.cons [97] (.scalar [49]) .nil),
         Value.aggregate (.cons [97] (.scalar [50]) (.cons [98] (.scalar [51]) .nil))]).2 := by
  decide

/-- Witness for C7 (amended): on an all-success input the adapter yields
one buffer per element and their concatenation equals the shared-buffer
output. -/
theorem iter_per_element_and_success_concatenation_witness :
    (runFrom (Writer.new ⟨⟨44, 34, 92, true, .Necessary, .Any 10⟩, 8192, false, true⟩)
      [Value.aggregate (.cons [97] (.scalar [49]) .nil),
       Value.aggregate (.cons [97] (.scalar [50]) .nil)]).length = 2 ∧
    oksJoin (runFrom
        (Writer.new ⟨⟨44, 34, 92, true, .Necessary, .Any 10⟩, 8192, false, true⟩)
        [Value.aggregate (.cons [97] (.scalar [49]) .nil),
         Value.aggregate (.cons [97] (.scalar [50]) .nil)]) =
      (serializeAllShared
        (Writer.new ⟨⟨44, 34, 92, true, .Necessary, .Any 10⟩, 8192, false, true⟩) []
        [Value.aggregate (.cons [97] (.scalar [49]) .nil),
         Value.aggregate (.cons [97] (.scalar [50]) .nil)]).2 := by
  have h := iter_per_element_and_success_concatenation
    (Writer.new ⟨⟨44, 34, 92, true, .Necessary, .Any 10⟩, 8192, false, true⟩)
    [Value.aggregate (.cons [97] (.scalar [49]) .nil),
     Value.aggregate (.cons [97] (.scalar [50]) .nil)]
  have hrun : runFrom
      (Writer.new ⟨⟨44, 34, 92, true, .Necessary, .Any 10⟩, 8192, false, true⟩)
      [Value.aggregate (.cons [97] (.scalar [49]) .nil),
       Value.aggregate (.cons [97] (.scalar [50]) .nil)] =
      [Except.ok [97, 10, 49, 10], Except.ok [50, 10]] := by rfl
  refine ⟨h.1, h.2.2 ?_⟩
  intro x hx
  rw [hrun] at hx
  simp only [List.mem_cons, List.not_mem_nil, or_false] at hx
  rcases hx with rfl | rfl
  · exact ⟨_, rfl⟩
  · exact ⟨_, rfl⟩

/-- C8: when the wrapped source yields a value whose serialization fails,
the push adapter's poll yields that error as a ready failure item — it does
not drop the element and does not end the stream in place of the error. -/
theorem stream_poll_next_surfaces_error (s : CsvStreamAdapter) (v : Value) (e : ErrorKind)
    (h : (s.writer.serialize [] v).1 = some e) :
    (s.poll_next (.ready (some v))).1 = .ready (some (.error e)) := by
  unfold CsvStreamAdapter.poll_next
  rcases hs : s.writer.serialize [] v with ⟨res, w, buf⟩
  rw [hs] at h
  match res with
  | some e2 =>
    have he : e2 = e := by simpa using h
    simp [hs, he]
  | none => simp at h

/-- Witness for C8: a two-field row against an established one-field
baseline fails with `UnequalLengths 1 2`, and the poll yields exactly that
error as a ready item. -/
theorem stream_poll_next_surfaces_error_witness :
    (CsvStreamAdapter.poll_next
      ⟨{ core := ⟨⟨44, 34, 92, true, .Necessary, .Any 10⟩, 0⟩,
         state := ⟨.None, false, some 1, 0, false⟩ }⟩
      (.ready (some (Value.aggregate
        (.cons [97] (.scalar [50]) (.cons [98] (.scalar [51]) .nil)))))).1 =
      .ready (some (.error (ErrorKind.UnequalLengths 1 2))) := by
  exact stream_poll_next_surfaces_error
    ⟨{ core := ⟨⟨44, 34, 92, true, .Necessary, .Any 10⟩, 0⟩,
       state := ⟨.None, false, some 1, 0, false⟩ }⟩
    (Value.aggregate (.cons [97] (.scalar [50]) (.cons [98] (.scalar [51]) .nil)))
    (ErrorKind.UnequalLengths 1 2) (by decide)

/-- C9: every primitive write over-allocates the buffer by the stated worst
case — at most 2 × field length + 2 output bytes for a field, 2 for a
delimiter, 4 for a terminator — so the modelled encoder's output always
fits the allocated slice (the encoder consumes its whole input in the one
call), and `extend` truncates the buffer to exactly its previous length
plus the encoder-reported output length. -/
theorem primitive_writes_over_allocate_and_truncate :
    (∀ (c : CoreWriter) (f : List Nat), ((c.field f).1).length ≤ 2 * f.length + 2) ∧
    (∀ c : CoreWriter, ((c.delimiter).1).length ≤ 2) ∧
    (∀ c : CoreWriter, ((c.terminator).1).length ≤ 4) ∧
    (∀ (buf : List Nat) (cap : Nat) (out : List Nat), out.length ≤ cap →
      extend buf cap out = buf ++ out) :=
  ⟨field_out_length, delimiter_out_length, terminator_out_length, extend_eq⟩

/-- Witness for C9: a three-byte encoder output against a four-byte
allocation is appended exactly. -/
theorem primitive_writes_over_allocate_and_truncate_witness :
    extend [1, 2] 4 [3, 4, 5] = [1, 2, 3, 4, 5] :=
  primitive_writes_over_allocate_and_truncate.2.2.2 [1, 2] 4 [3, 4, 5] (by decide)

end CsvStream
